import Mathlib

/-!
Shallow embedding of the nRF5x peripheral timer driver
(`cpu/nrf5x_common/periph/timer.c`) and proofs about its channel state
machine, frequency resolution and interrupt dispatch.

Machine integers are modelled as `Nat` (with an explicit `% 256` wherever the
source stores into a `uint8_t` field) and the channel argument of the channel
operations as `Int`, mirroring the C `int chan` parameter.  Executions that
run into C undefined behaviour (an out-of-bounds `timer_config[tim]` /
`ctx[tim]` access, or a shift by a negative channel index) are represented by
a distinguished `ub` result that carries no final state.
-/

namespace NrfTimer

/-- Constant `F_TIMER`: the timer is clocked at 16 MHz. -/
def F_TIMER : Nat := 16000000

/-- Constant `TIMER_INTENSET_COMPARE0_Msk`: bit 16 of INTENSET/INTENCLR controls the
COMPARE0 interrupt; channel `c` uses bit `16 + c`. -/
def TIMER_INTENSET_COMPARE0_Msk : Nat := 65536

/-- Register value `TIMER_MODE_MODE_Timer`. -/
def TIMER_MODE_MODE_Timer : Nat := 0

/-- Modelled from the spec: the "reset counter on set" flag bit of
`timer_set_periodic`, declared in `periph/timer.h`, which is not among the
sources; the spec describes it as forcing the counter to zero immediately. -/
def TIM_FLAG_RESET_ON_SET : Nat := 1

/-- Modelled from the spec: the "reset counter on match" flag bit of
`timer_set_periodic`, declared in `periph/timer.h`, which is not among the
sources; the spec describes it as hardware auto-clearing the count on this
channel's match. -/
def TIM_FLAG_RESET_ON_MATCH : Nat := 2

/-- Modelled from the spec: the "leave stopped" flag bit of
`timer_set_periodic`, declared in `periph/timer.h`, which is not among the
sources; the spec describes it as suppressing the implicit restart at the end
of the call. -/
def TIM_FLAG_SET_STOPPED : Nat := 4

/-- Per-instance entry of the static hardware descriptor table
(`timer_conf_t` / `timer_config[]`): the channel count and the BITMODE value.
The register base address and interrupt line identity are identity-like and
need no representation of their own. -/
structure timer_conf_t where
  channels : Nat
  bitmode : Nat
deriving DecidableEq

/-- The software context of one timer instance (`tim_ctx_t`) together with
the registers of its peripheral (`NRF_TIMER_Type`) that the driver touches.

* `cb`/`arg` stand for the stored `timer_cb_t` pointer and its argument,
  represented by opaque numeric identities;
* `flags` and `is_periodic` are the two `uint8_t` channel bitsets;
* `cc` is the CC capture/compare register file (6 registers on this
  peripheral family);
* `events` holds `EVENTS_COMPARE[i]` as bit `i`;
* `inten` is the interrupt-enable register written through INTENSET/INTENCLR;
* `shorts` is the SHORTS register;
* `running` abstracts TASKS_START/TASKS_STOP/TASKS_SHUTDOWN;
* `counter` is the internal count, zeroed by TASKS_CLEAR;
* `prescaler`, `hwBitmode`, `hwMode` are the corresponding registers;
* `irqEnabled` records `NVIC_EnableIRQ(timer_config[tim].irqn)`. -/
structure TimState where
  cb : Nat
  arg : Nat
  flags : Nat
  is_periodic : Nat
  cc : List Nat
  events : Nat
  inten : Nat
  shorts : Nat
  running : Bool
  counter : Nat
  prescaler : Nat
  hwBitmode : Nat
  hwMode : Nat
  irqEnabled : Bool
deriving DecidableEq

/-- The zero-initialized state of one instance: `static tim_ctx_t ctx[]` is
zeroed at load time and the peripheral registers start cleared. -/
def TimState0 : TimState :=
  { cb := 0, arg := 0, flags := 0, is_periodic := 0
    cc := List.replicate 6 0
    events := 0, inten := 0, shorts := 0
    running := false, counter := 0, prescaler := 0
    hwBitmode := 0, hwMode := 0, irqEnabled := false }

/-- Result of a C call: a returned `int` together with the final state, or
undefined behaviour (`ub`), which has no defined final state. -/
inductive CResult (σ : Type) where
  | ret (value : Int) (state : σ)
  | ub
deriving DecidableEq

/-- The returned `int` of a call, when the call has defined behaviour. -/
def CResult.retval {σ : Type} : CResult σ → Option Int
  | .ret v _ => some v
  | .ub => none

/-- The final state of a call, when the call has defined behaviour. -/
def CResult.state {σ : Type} : CResult σ → Option σ
  | .ret _ s => some s
  | .ub => none

/-- The body of the prescaler search loop in `timer_init`:
`for (i = 0; i < 10; i++) { if (freq == cando) { PRESCALER = i; break; } cando /= 2; }`
with `fuel = 10 - i` remaining iterations.  Returns the exponent written to
PRESCALER, or `none` when the loop runs to `i == 10`. -/
def prescalerLoopAux (freq : Nat) : Nat → Nat → Nat → Option Nat
  | _, _, 0 => none
  | cando, i, fuel + 1 =>
      if freq = cando then some i else prescalerLoopAux freq (cando / 2) (i + 1) fuel

/-- The frequency-to-prescaler resolution of `timer_init`, starting from
`cando = F_TIMER` and `i = 0` with 10 iterations available. -/
def prescaler_of (freq : Nat) : Option Nat :=
  prescalerLoopAux freq F_TIMER 0 10

/-- Body of `timer_init` for one (already instance-validated) timer: store the
callback binding, stop and reconfigure the peripheral, resolve the frequency
(returning -1 when the loop finds no match), clear the first three compare
events, enable the interrupt line and start the timer. -/
def timer_init1 (cfg : timer_conf_t) (s : TimState) (freq cb arg : Nat) :
    CResult TimState :=
  let s1 := { s with cb := cb, arg := arg }
  let s2 := { s1 with running := false }
  let s3 := { s2 with hwBitmode := cfg.bitmode }
  let s4 := { s3 with hwMode := TIMER_MODE_MODE_Timer }
  let s5 := { s4 with counter := 0 }
  match prescaler_of freq with
  | none => .ret (-1) s5
  | some i =>
      let s6 := { s5 with prescaler := i }
      let s7 := { s6 with
        events := ((s6.events.ldiff (1 <<< 0)).ldiff (1 <<< 1)).ldiff (1 <<< 2) }
      let s8 := { s7 with irqEnabled := true }
      let s9 := { s8 with running := true }
      .ret 0 s9

/-- Body of `timer_set_absolute` for one instance: reject `chan >= channels`
(a signed comparison, so a negative `chan` passes), then set the armed bit,
program CC, clear the stale compare event (the read-back has no state
effect), and enable the channel's interrupt via INTENSET.  A negative `chan`
that passed the guard reaches `1 << chan` and `CC[chan]`, which is undefined
behaviour. -/
def timer_set_absolute1 (cfg : timer_conf_t) (s : TimState) (chan : Int)
    (value : Nat) : CResult TimState :=
  if (cfg.channels : Int) ≤ chan then .ret (-1) s
  else if chan < 0 then .ub
  else
    let c := chan.toNat
    let s1 := { s with flags := (s.flags ||| (1 <<< c)) % 256 }
    let s2 := { s1 with cc := s1.cc.set c value }
    let s3 := { s2 with events := s2.events.ldiff (1 <<< c) }
    let s4 := { s3 with inten := s3.inten ||| (TIMER_INTENSET_COMPARE0_Msk <<< c) }
    .ret 0 s4

/-- Body of `timer_set_periodic` for one instance: reject `chan >= channels`,
stop the timer, set the armed and periodic bits, program CC, apply the
reset-on-match SHORTS bit and the reset-on-set counter clear when requested,
clear the stale compare event, enable the channel interrupt, and restart the
timer unless `TIM_FLAG_SET_STOPPED` is given. -/
def timer_set_periodic1 (cfg : timer_conf_t) (s : TimState) (chan : Int)
    (value : Nat) (flags : Nat) : CResult TimState :=
  if (cfg.channels : Int) ≤ chan then .ret (-1) s
  else if chan < 0 then .ub
  else
    let c := chan.toNat
    let s1 := { s with running := false }
    let s2 := { s1 with flags := (s1.flags ||| (1 <<< c)) % 256 }
    let s3 := { s2 with is_periodic := (s2.is_periodic ||| (1 <<< c)) % 256 }
    let s4 := { s3 with cc := s3.cc.set c value }
    let s5 := if flags &&& TIM_FLAG_RESET_ON_MATCH ≠ 0 then
        { s4 with shorts := s4.shorts ||| (1 <<< c) } else s4
    let s6 := if flags &&& TIM_FLAG_RESET_ON_SET ≠ 0 then
        { s5 with counter := 0 } else s5
    let s7 := { s6 with events := s6.events.ldiff (1 <<< c) }
    let s8 := { s7 with inten := s7.inten ||| (TIMER_INTENSET_COMPARE0_Msk <<< c) }
    let s9 := if flags &&& TIM_FLAG_SET_STOPPED = 0 then
        { s8 with running := true } else s8
    .ret 0 s9

/-- Body of `timer_clear` for one instance: reject `chan >= channels`, then
disable the channel interrupt via INTENCLR, clear the channel's SHORTS bit,
and clear both the armed and periodic software bits. -/
def timer_clear1 (cfg : timer_conf_t) (s : TimState) (chan : Int) :
    CResult TimState :=
  if (cfg.channels : Int) ≤ chan then .ret (-1) s
  else if chan < 0 then .ub
  else
    let c := chan.toNat
    let s1 := { s with inten := s.inten.ldiff (TIMER_INTENSET_COMPARE0_Msk <<< c) }
    let s2 := { s1 with shorts := s1.shorts.ldiff (1 <<< c) }
    let s3 := { s2 with flags := (s2.flags.ldiff (1 <<< c)) % 256 }
    let s4 := { s3 with is_periodic := (s3.is_periodic.ldiff (1 <<< c)) % 256 }
    .ret 0 s4

/-- Body of `timer_read` for one instance: trigger
`TASKS_CAPTURE[channels]` (which copies the counter into the reserved CC
register) and read that CC register back. -/
def timer_read1 (cfg : timer_conf_t) (s : TimState) : Nat × TimState :=
  let s1 := { s with cc := s.cc.set cfg.channels s.counter }
  (s1.cc.getD cfg.channels 0, s1)

/-- Body of `timer_start` for one instance: `TASKS_START = 1`. -/
def timer_start1 (s : TimState) : TimState :=
  { s with running := true }

/-- Body of `timer_stop` for one instance: `TASKS_SHUTDOWN = 1` (the errata
workaround uses the shutdown task in place of a bare stop). -/
def timer_stop1 (s : TimState) : TimState :=
  { s with running := false }

/-- One iteration of the `irq_handler` scan at channel `i`: when
`EVENTS_COMPARE[i]` is pending, clear it; when the software armed bit is also
set, disarm a non-periodic channel (clear its armed bit and INTENCLR its
interrupt) and invoke the callback with `i` (the returned `Option Nat`
records the invocation). -/
def irq_step (s : TimState) (i : Nat) : TimState × Option Nat :=
  if s.events.testBit i then
    let s1 := { s with events := s.events.ldiff (1 <<< i) }
    if s1.flags.testBit i then
      if s1.is_periodic.testBit i = false then
        let s2 := { s1 with
          flags := (s1.flags.ldiff (1 <<< i)) % 256
          inten := s1.inten.ldiff (TIMER_INTENSET_COMPARE0_Msk <<< i) }
        (s2, some i)
      else (s1, some i)
    else (s1, none)
  else (s, none)

/-- The `irq_handler` scan over a list of channel indices, collecting the
trace of callback invocations (each entry is the channel index passed to the
stored callback binding). -/
def irq_scan (s : TimState) : List Nat → TimState × List Nat
  | [] => (s, [])
  | i :: rest =>
      let p := irq_step s i
      let q := irq_scan p.1 rest
      (q.1, p.2.toList ++ q.2)

/-- The `irq_handler` of one instance: scan channels `0 .. channels - 1` in
increasing order.  The final `cortexm_isr_end()` epilogue is an external
collaborator with no effect on this state. -/
def irq_handler1 (cfg : timer_conf_t) (s : TimState) : TimState × List Nat :=
  irq_scan s (List.range cfg.channels)

/-- Lift a per-instance call result to the whole `ctx[]` array. -/
def onInstance (sts : List TimState) (tim : Nat) (r : CResult TimState) :
    CResult (List TimState) :=
  match r with
  | .ret v s => .ret v (sts.set tim s)
  | .ub => .ub

/-- Function `timer_init`: the only operation that validates the instance index
(`if (tim >= TIMER_NUMOF) return -1;` before any other access). -/
def timer_init (cfgs : List timer_conf_t) (sts : List TimState) (tim : Nat)
    (freq cb arg : Nat) : CResult (List TimState) :=
  if cfgs.length ≤ tim then .ret (-1) sts
  else
    match cfgs[tim]?, sts[tim]? with
    | some cfg, some s => onInstance sts tim (timer_init1 cfg s freq cb arg)
    | _, _ => .ub

/-- Function `timer_set_absolute` at the public interface: `timer_config[tim]` and
`ctx[tim]` are accessed without any instance validation, so an out-of-range
`tim` is an out-of-bounds access (undefined behaviour), not a failure
return. -/
def timer_set_absolute (cfgs : List timer_conf_t) (sts : List TimState)
    (tim : Nat) (chan : Int) (value : Nat) : CResult (List TimState) :=
  match cfgs[tim]?, sts[tim]? with
  | some cfg, some s => onInstance sts tim (timer_set_absolute1 cfg s chan value)
  | _, _ => .ub

/-- Function `timer_set_periodic` at the public interface (no instance validation). -/
def timer_set_periodic (cfgs : List timer_conf_t) (sts : List TimState)
    (tim : Nat) (chan : Int) (value : Nat) (flags : Nat) :
    CResult (List TimState) :=
  match cfgs[tim]?, sts[tim]? with
  | some cfg, some s => onInstance sts tim (timer_set_periodic1 cfg s chan value flags)
  | _, _ => .ub

/-- Function `timer_clear` at the public interface (no instance validation). -/
def timer_clear (cfgs : List timer_conf_t) (sts : List TimState)
    (tim : Nat) (chan : Int) : CResult (List TimState) :=
  match cfgs[tim]?, sts[tim]? with
  | some cfg, some s => onInstance sts tim (timer_clear1 cfg s chan)
  | _, _ => .ub

/-- A hardware-descriptor entry used for the concrete scenarios: an instance
with 3 usable channels (the fourth CC register is reserved for `timer_read`)
and an arbitrary BITMODE value. -/
def cfgA : timer_conf_t := { channels := 3, bitmode := 3 }

/-- A state whose channel 1 is armed-periodic, as `timer_set_periodic` leaves
it (restricted to the two software bitsets). -/
def c2PerState : TimState := { TimState0 with flags := 2, is_periodic := 2 }

/-- A state with channels 0 and 1 armed and channel 0 periodic, standing for
arbitrary pre-existing channel state before a re-initialization. -/
def c3DirtyState : TimState := { TimState0 with flags := 3, is_periodic := 1 }

/-- The state `timer_init` leaves behind on the unsatisfiable-frequency path
starting from `TimState0` with callback binding (7, 9) on `cfgA`: the binding
is stored and the peripheral is stopped and reconfigured, but the channel
bitsets survive. -/
def c3FailOut : TimState := { TimState0 with cb := 7, arg := 9, hwBitmode := 3 }

/-- A state with channel 0 armed-one-shot and its compare event pending. -/
def c5Pending : TimState :=
  { TimState0 with flags := 1, events := 1, inten := 65536 }

/-- A state with a pending compare event on channel 0 whose software armed
bit is clear (a stale event after a disarm). -/
def c6Stale : TimState := { TimState0 with events := 1 }

/-- A state with channel 0 armed-periodic, used to exercise `timer_clear`. -/
def c9Armed : TimState := { TimState0 with flags := 1, is_periodic := 1 }

/-- The Channel State Store invariant of one instance: every periodic
channel is also armed, together with the `uint8_t` representation bounds
that the two bitsets always satisfy in the C program. -/
def StoreInv (s : TimState) : Prop :=
  (∀ b, s.is_periodic.testBit b = true → s.flags.testBit b = true) ∧
  s.flags < 256 ∧ s.is_periodic < 256

/-! ### Basic bit-level helper lemmas -/

theorem shiftLeft_one_eq (c : Nat) : 1 <<< c = 2 ^ c := by
  rw [Nat.shiftLeft_eq, one_mul]

theorem testBit_shiftLeft_one (c b : Nat) : (1 <<< c).testBit b = decide (c = b) := by
  rw [shiftLeft_one_eq, Nat.testBit_two_pow]

theorem msk_shiftLeft (c : Nat) :
    TIMER_INTENSET_COMPARE0_Msk <<< c = 2 ^ (16 + c) := by
  rw [TIMER_INTENSET_COMPARE0_Msk, Nat.shiftLeft_eq, pow_add]
  norm_num

theorem testBit_msk_shiftLeft (c b : Nat) :
    (TIMER_INTENSET_COMPARE0_Msk <<< c).testBit b = decide (16 + c = b) := by
  rw [msk_shiftLeft, Nat.testBit_two_pow]

theorem testBit_mod256 (x b : Nat) :
    (x % 256).testBit b = (decide (b < 8) && x.testBit b) := by
  have h : (256 : Nat) = 2 ^ 8 := by norm_num
  rw [h, Nat.testBit_mod_two_pow]

theorem testBit_false_of_lt_256 {x b : Nat} (hx : x < 256) (hb : 8 ≤ b) :
    x.testBit b = false := by
  refine Nat.testBit_lt_two_pow (lt_of_lt_of_le hx ?_)
  calc (256 : Nat) = 2 ^ 8 := by norm_num
    _ ≤ 2 ^ b := Nat.pow_le_pow_right (by norm_num) hb

theorem lt_eight_of_testBit {x b : Nat} (hx : x < 256) (h : x.testBit b = true) :
    b < 8 := by
  by_contra hb
  rw [testBit_false_of_lt_256 hx (by omega)] at h
  cases h

theorem set_self_of_getElem? {α : Type} (l : List α) (i : Nat) (a : α)
    (h : l[i]? = some a) : l.set i a = l := by
  apply List.ext_getElem?
  intro j
  rcases eq_or_ne i j with rfl | hne
  · rw [h, List.getElem?_set_self]
    exact (List.getElem?_eq_some.mp h).1
  · exact List.getElem?_set_ne hne

/-! ### The frequency resolver (claim C4) -/

theorem div2_pow (a k : Nat) : a / 2 / 2 ^ k = a / 2 ^ (k + 1) := by
  rw [Nat.div_div_eq_div_mul, ← Nat.pow_succ']

theorem prescalerLoopAux_some_iff (freq : Nat) :
    ∀ fuel a i e : Nat,
      prescalerLoopAux freq a i fuel = some e ↔
        (i ≤ e ∧ e < i + fuel ∧ a / 2 ^ (e - i) = freq ∧
          ∀ j, i ≤ j → j < e → a / 2 ^ (j - i) ≠ freq) := by
  intro fuel
  induction fuel with
  | zero =>
      intro a i e
      constructor
      · intro h; cases h
      · rintro ⟨h1, h2, -, -⟩; omega
  | succ fuel ih =>
      intro a i e
      by_cases hfa : freq = a
      · simp only [prescalerLoopAux, if_pos hfa]
        constructor
        · intro h
          have he : e = i := by injection h with h; omega
          subst he
          refine ⟨Nat.le_refl _, by omega, by simpa using hfa.symm, ?_⟩
          intro j hj1 hj2; omega
        · rintro ⟨h1, h2, h3, h4⟩
          have he : e = i := by
            by_contra hne
            have hi : i < e := lt_of_le_of_ne h1 (Ne.symm hne)
            have hcontra := h4 i (Nat.le_refl i) hi
            simp only [Nat.sub_self, pow_zero, Nat.div_one] at hcontra
            exact hcontra hfa.symm
          subst he; rfl
      · simp only [prescalerLoopAux, if_neg hfa]
        rw [ih (a / 2) (i + 1) e]
        constructor
        · rintro ⟨h1, h2, h3, h4⟩
          obtain ⟨k, rfl⟩ : ∃ k, e = i + 1 + k := ⟨e - (i + 1), by omega⟩
          have hei : i + 1 + k - i = k + 1 := by omega
          have hei' : i + 1 + k - (i + 1) = k := by omega
          rw [hei'] at h3
          refine ⟨by omega, by omega, ?_, ?_⟩
          · rw [hei, ← div2_pow]; exact h3
          · intro j hj1 hj2
            rcases eq_or_ne j i with rfl | hji
            · simpa using fun hh => hfa hh.symm
            · have hj1' : i + 1 ≤ j := by omega
              have := h4 j hj1' hj2
              obtain ⟨m, rfl⟩ : ∃ m, j = i + 1 + m := ⟨j - (i + 1), by omega⟩
              have hm : i + 1 + m - (i + 1) = m := by omega
              have hm' : i + 1 + m - i = m + 1 := by omega
              rw [hm] at this
              rw [hm', ← div2_pow]; exact this
        · rintro ⟨h1, h2, h3, h4⟩
          have hei : i < e := by
            rcases lt_or_eq_of_le h1 with h | rfl
            · exact h
            · exfalso
              simp only [Nat.sub_self, pow_zero, Nat.div_one] at h3
              exact hfa h3.symm
          obtain ⟨k, rfl⟩ : ∃ k, e = i + 1 + k := ⟨e - (i + 1), by omega⟩
          have hei1 : i + 1 + k - i = k + 1 := by omega
          have hei2 : i + 1 + k - (i + 1) = k := by omega
          rw [hei1] at h3
          refine ⟨by omega, by omega, ?_, ?_⟩
          · rw [hei2, div2_pow]; exact h3
          · intro j hj1 hj2
            have := h4 j (by omega) hj2
            obtain ⟨m, rfl⟩ : ∃ m, j = i + 1 + m := ⟨j - (i + 1), by omega⟩
            have hm : i + 1 + m - i = m + 1 := by omega
            have hm' : i + 1 + m - (i + 1) = m := by omega
            rw [hm] at this
            rw [hm', div2_pow]; exact this

theorem prescalerLoopAux_none_iff (freq : Nat) :
    ∀ fuel a i : Nat,
      prescalerLoopAux freq a i fuel = none ↔ ∀ k, k < fuel → a / 2 ^ k ≠ freq := by
  intro fuel
  induction fuel with
  | zero =>
      intro a i
      exact ⟨fun _ k hk => absurd hk (by omega), fun _ => rfl⟩
  | succ fuel ih =>
      intro a i
      by_cases hfa : freq = a
      · simp only [prescalerLoopAux, if_pos hfa]
        constructor
        · intro h; cases h
        · intro h
          have h0 := h 0 (by omega)
          rw [pow_zero, Nat.div_one] at h0
          exact absurd hfa.symm h0
      · simp only [prescalerLoopAux, if_neg hfa]
        rw [ih (a / 2) (i + 1)]
        constructor
        · intro h k hk
          match k with
          | 0 =>
              rw [pow_zero, Nat.div_one]
              exact fun hh => hfa hh.symm
          | k + 1 =>
              have := h k (by omega)
              rw [div2_pow] at this
              exact this
        · intro h k hk
          rw [div2_pow]
          exact h (k + 1) (by omega)

theorem prescaler_of_some_iff (freq e : Nat) :
    prescaler_of freq = some e ↔
      (e ≤ 9 ∧ F_TIMER / 2 ^ e = freq ∧ ∀ j, j < e → F_TIMER / 2 ^ j ≠ freq) := by
  rw [prescaler_of, prescalerLoopAux_some_iff]
  constructor
  · rintro ⟨-, h2, h3, h4⟩
    refine ⟨by omega, by simpa using h3, fun j hj => by simpa using h4 j (by omega) hj⟩
  · rintro ⟨h1, h2, h3⟩
    exact ⟨by omega, by omega, by simpa using h2, fun j _ hj => by simpa using h3 j hj⟩

theorem prescaler_of_none_iff (freq : Nat) :
    prescaler_of freq = none ↔ ∀ e, e ≤ 9 → F_TIMER / 2 ^ e ≠ freq := by
  rw [prescaler_of, prescalerLoopAux_none_iff]
  constructor
  · intro h e he; exact h e (by omega)
  · intro h k hk; exact h k (by omega)

/-- C4: The Frequency Resolver, for a maximum clock of 16000000 and any
requested frequency, returns the smallest exponent `e` in `[0,9]` with
`16000000 / 2^e == frequency` exactly (first match in increasing order of
`e`), and fails when no exponent in that range matches; the division is exact
for every `e` in range; `initialize` with frequency 1000000 programs
prescaler 4 and succeeds, while frequency 1500000 makes `initialize` fail. -/
theorem c4_frequency_resolver :
    (∀ freq e : Nat, prescaler_of freq = some e ↔
      (e ≤ 9 ∧ F_TIMER / 2 ^ e = freq ∧ ∀ j, j < e → F_TIMER / 2 ^ j ≠ freq)) ∧
    (∀ freq : Nat, prescaler_of freq = none ↔ ∀ e, e ≤ 9 → F_TIMER / 2 ^ e ≠ freq) ∧
    (∀ e, e ≤ 9 → 2 ^ e * (F_TIMER / 2 ^ e) = F_TIMER) ∧
    (timer_init1 cfgA TimState0 1000000 7 9).retval = some 0 ∧
    ((timer_init1 cfgA TimState0 1000000 7 9).state.map TimState.prescaler) = some 4 ∧
    (timer_init1 cfgA TimState0 1500000 7 9).retval = some (-1) := by
  refine ⟨prescaler_of_some_iff, prescaler_of_none_iff, ?_, by decide, by decide, by decide⟩
  intro e he
  interval_cases e <;> norm_num [F_TIMER]

/-- Concrete instance of C4: resolving 1 MHz from the 16 MHz base clock gives
prescaler exponent 4. -/
theorem c4_frequency_resolver_witness : prescaler_of 1000000 = some 4 :=
  (c4_frequency_resolver.1 1000000 4).mpr (by decide)

/-! ### ldiff helper lemmas -/

theorem ldiff_idem (x m : Nat) : (x.ldiff m).ldiff m = x.ldiff m := by
  apply Nat.eq_of_testBit_eq
  intro j
  simp only [Nat.testBit_ldiff]
  cases m.testBit j <;> simp

theorem ldiff_mod256_idem (x m : Nat) :
    (((x.ldiff m) % 256).ldiff m) % 256 = (x.ldiff m) % 256 := by
  apply Nat.eq_of_testBit_eq
  intro j
  simp only [testBit_mod256, Nat.testBit_ldiff]
  by_cases hj : j < 8 <;> cases hm : m.testBit j <;> simp [hj, hm]

theorem ldiff_mod256_of_not_testBit {x : Nat} (c : Nat) (hx : x < 256)
    (h : x.testBit c = false) : (x.ldiff (1 <<< c)) % 256 = x := by
  apply Nat.eq_of_testBit_eq
  intro j
  rw [testBit_mod256, Nat.testBit_ldiff, testBit_shiftLeft_one]
  by_cases hj : j < 8
  · rcases eq_or_ne c j with rfl | hcj
    · simp [h, hj]
    · simp [hj, hcj]
  · have hxj : x.testBit j = false := testBit_false_of_lt_256 hx (by omega)
    simp [hj, hxj]

theorem testBit_ldiff_mod256_self (x c : Nat) :
    ((x.ldiff (1 <<< c)) % 256).testBit c = false := by
  rw [testBit_mod256, Nat.testBit_ldiff, testBit_shiftLeft_one]
  simp

theorem testBit_ldiff_one_self (x c : Nat) :
    (x.ldiff (1 <<< c)).testBit c = false := by
  rw [Nat.testBit_ldiff, testBit_shiftLeft_one]
  simp

theorem testBit_ldiff_msk_self (x c : Nat) :
    (x.ldiff (TIMER_INTENSET_COMPARE0_Msk <<< c)).testBit (16 + c) = false := by
  rw [Nat.testBit_ldiff, testBit_msk_shiftLeft]
  simp

/-! ### Claim C1: argument validation of the Control API -/

/-- C1 counterexample: The claim says every Control API operation
returns a failure result for an out-of-range instance index; but
`timer_set_absolute(1, 0, 5)` on a configuration with a single instance
accesses `timer_config[1]` without any instance check — undefined behaviour
with no defined return value, not a failure result. -/
theorem c1_cex_unchecked_instance :
    timer_set_absolute [cfgA] [TimState0] 1 0 5 = CResult.ub ∧
    (timer_set_absolute [cfgA] [TimState0] 1 0 5).retval = none := by decide

/-- C1 amended: `initialize` validates the instance index and returns
failure with no mutation for an out-of-range instance; `set_absolute`,
`set_periodic` and `clear` validate only the channel index, returning
failure with no mutation (of software state or hardware registers) when
`chan ≥ channels` on a valid instance; the remaining operations perform no
validation at all. -/
theorem c1_amended_validation :
    (∀ (cfgs : List timer_conf_t) (sts : List TimState) (tim freq cb arg : Nat),
      cfgs.length ≤ tim →
      timer_init cfgs sts tim freq cb arg = CResult.ret (-1) sts) ∧
    (∀ (cfgs : List timer_conf_t) (sts : List TimState) (tim : Nat)
        (cfg : timer_conf_t) (s : TimState) (chan : Int) (value : Nat),
      cfgs[tim]? = some cfg → sts[tim]? = some s → (cfg.channels : Int) ≤ chan →
      timer_set_absolute cfgs sts tim chan value = CResult.ret (-1) sts) ∧
    (∀ (cfgs : List timer_conf_t) (sts : List TimState) (tim : Nat)
        (cfg : timer_conf_t) (s : TimState) (chan : Int) (value fl : Nat),
      cfgs[tim]? = some cfg → sts[tim]? = some s → (cfg.channels : Int) ≤ chan →
      timer_set_periodic cfgs sts tim chan value fl = CResult.ret (-1) sts) ∧
    (∀ (cfgs : List timer_conf_t) (sts : List TimState) (tim : Nat)
        (cfg : timer_conf_t) (s : TimState) (chan : Int),
      cfgs[tim]? = some cfg → sts[tim]? = some s → (cfg.channels : Int) ≤ chan →
      timer_clear cfgs sts tim chan = CResult.ret (-1) sts) := by
  refine ⟨?_, ?_, ?_, ?_⟩
  · intro cfgs sts tim freq cb arg h
    simp [timer_init, h]
  · intro cfgs sts tim cfg s chan value hcfg hsts hch
    simp [timer_set_absolute, hcfg, hsts, timer_set_absolute1, if_pos hch,
      onInstance, set_self_of_getElem? sts tim s hsts]
  · intro cfgs sts tim cfg s chan value fl hcfg hsts hch
    simp [timer_set_periodic, hcfg, hsts, timer_set_periodic1, if_pos hch,
      onInstance, set_self_of_getElem? sts tim s hsts]
  · intro cfgs sts tim cfg s chan hcfg hsts hch
    simp [timer_clear, hcfg, hsts, timer_clear1, if_pos hch,
      onInstance, set_self_of_getElem? sts tim s hsts]

/-- Concrete instance of the amended C1: `timer_init` on instance 3 of a
one-instance configuration fails without mutating anything. -/
theorem c1_amended_validation_witness :
    timer_init [cfgA] [TimState0] 3 1000000 7 9 = CResult.ret (-1) [TimState0] :=
  c1_amended_validation.1 [cfgA] [TimState0] 3 1000000 7 9 (by decide)

/-! ### Claim C2: state after `timer_set_absolute` -/

/-- C2 counterexample: On a channel that was previously armed-periodic,
a successful `set_absolute` leaves the periodic bit set: starting from
`c2PerState` (channel 1 armed-periodic), `timer_set_absolute(·, 1, 100)`
returns success but the periodic bitset is still 2 (bit 1 set), while the
claim requires the periodic bit to be clear afterwards. -/
theorem c2_cex_periodic_survives :
    (timer_set_absolute1 cfgA c2PerState 1 100).retval = some 0 ∧
    ((timer_set_absolute1 cfgA c2PerState 1 100).state.map TimState.is_periodic)
      = some 2 ∧
    Nat.testBit 2 1 = true := by decide

/-- C2 amended: After a successful `set_absolute(instance, chan, value)`
on a valid channel the channel's armed bit is set, but the periodic bitset is
left exactly as it was before the call (the code never clears it), as are
the callback binding fields. -/
theorem c2_amended_set_absolute_arms (cfg : timer_conf_t) (s : TimState)
    (chan : Int) (value : Nat) (h0 : 0 ≤ chan)
    (hc : chan < (cfg.channels : Int)) (h8 : cfg.channels ≤ 8) :
    (timer_set_absolute1 cfg s chan value).retval = some 0 ∧
    ∀ s', (timer_set_absolute1 cfg s chan value).state = some s' →
      s'.flags.testBit chan.toNat = true ∧ s'.is_periodic = s.is_periodic ∧
      s'.cb = s.cb ∧ s'.arg = s.arg := by
  have hg1 : ¬((cfg.channels : Int) ≤ chan) := not_le.mpr hc
  have hg2 : ¬(chan < 0) := not_lt.mpr h0
  have hlt : chan.toNat < 8 := by omega
  simp only [timer_set_absolute1, if_neg hg1, if_neg hg2]
  refine ⟨rfl, ?_⟩
  intro s' hs'
  have hs'' : s' = _ := (Option.some.injEq _ _).mp hs'.symm
  subst hs''
  refine ⟨?_, rfl, rfl, rfl⟩
  rw [testBit_mod256, Nat.testBit_or, testBit_shiftLeft_one]
  simp [hlt]

/-- Concrete instance of the amended C2: arming channel 0 of a fresh instance
succeeds. -/
theorem c2_amended_set_absolute_arms_witness :
    (timer_set_absolute1 cfgA TimState0 0 55).retval = some 0 :=
  (c2_amended_set_absolute_arms cfgA TimState0 0 55 (by decide) (by decide)
    (by decide)).1

/-! ### Claim C3: what `timer_init` overwrites -/

/-- C3 counterexample: A successful re-initialization does not reset
the channel bitsets: from `c3DirtyState` (armed bitset 3, periodic bitset 1),
`timer_init(·, 16000000, 7, 9)` succeeds yet both bitsets survive unchanged,
while the claim requires them to be reset. -/
theorem c3_cex_init_keeps_channel_state :
    (timer_init1 cfgA c3DirtyState 16000000 7 9).retval = some 0 ∧
    ((timer_init1 cfgA c3DirtyState 16000000 7 9).state.map TimState.flags)
      = some 3 ∧
    ((timer_init1 cfgA c3DirtyState 16000000 7 9).state.map TimState.is_periodic)
      = some 1 := by decide

/-- C3 amended: `timer_init` overwrites the Callback Binding (the
callback and its argument) of the instance, but the armed and periodic
bitsets of the Channel State Store entry are left untouched, on both the
success path and the unsatisfiable-frequency path. -/
theorem c3_amended_init_overwrites_binding_only (cfg : timer_conf_t)
    (s : TimState) (freq cb arg : Nat) (r : Int) (s' : TimState)
    (h : timer_init1 cfg s freq cb arg = CResult.ret r s') :
    s'.cb = cb ∧ s'.arg = arg ∧ s'.flags = s.flags ∧
    s'.is_periodic = s.is_periodic := by
  simp only [timer_init1] at h
  cases hp : prescaler_of freq with
  | none =>
      rw [hp] at h
      injection h with h1 h2
      subst h2
      exact ⟨rfl, rfl, rfl, rfl⟩
  | some i =>
      rw [hp] at h
      injection h with h1 h2
      subst h2
      exact ⟨rfl, rfl, rfl, rfl⟩

/-- Concrete instance of the amended C3: the failing `timer_init` at
1.5 MHz still stores the binding (7, 9) and keeps the (empty) bitsets. -/
theorem c3_amended_init_overwrites_binding_only_witness :
    c3FailOut.cb = 7 ∧ c3FailOut.arg = 9 ∧
    c3FailOut.flags = TimState0.flags ∧
    c3FailOut.is_periodic = TimState0.is_periodic :=
  c3_amended_init_overwrites_binding_only cfgA TimState0 1500000 7 9 (-1)
    c3FailOut (by decide)

/-! ### Claim C8: the "leave stopped" flag of `timer_set_periodic` -/

/-- C8: `set_periodic` on a valid channel always succeeds, stops the
timer before reprogramming, and restarts it at the end of the call exactly
when `TIM_FLAG_SET_STOPPED` is not set: the final running state equals
`decide (flags &&& TIM_FLAG_SET_STOPPED = 0)`, independently of whether the
timer was running before the call. -/
theorem c8_set_periodic_stop_flag (cfg : timer_conf_t) (s : TimState)
    (chan : Int) (value fl : Nat) (h0 : 0 ≤ chan)
    (hc : chan < (cfg.channels : Int)) :
    (timer_set_periodic1 cfg s chan value fl).retval = some 0 ∧
    ((timer_set_periodic1 cfg s chan value fl).state.map TimState.running)
      = some (decide (fl &&& TIM_FLAG_SET_STOPPED = 0)) := by
  have hg1 : ¬((cfg.channels : Int) ≤ chan) := not_le.mpr hc
  have hg2 : ¬(chan < 0) := not_lt.mpr h0
  by_cases h1 : fl &&& TIM_FLAG_RESET_ON_MATCH ≠ 0 <;>
    by_cases h2 : fl &&& TIM_FLAG_RESET_ON_SET ≠ 0 <;>
      by_cases h3 : fl &&& TIM_FLAG_SET_STOPPED = 0 <;>
        simp [timer_set_periodic1, if_neg hg1, if_neg hg2, h1, h2, h3,
          CResult.retval, CResult.state]

/-- Concrete instance of C8 (the spec scenario):
`set_periodic(·, 1, 100, RESET_ON_MATCH | SET_STOPPED)` leaves the timer
stopped. -/
theorem c8_set_periodic_stop_flag_witness :
    ((timer_set_periodic1 cfgA TimState0 1 100
        (TIM_FLAG_RESET_ON_MATCH ||| TIM_FLAG_SET_STOPPED)).state.map
      TimState.running) = some false :=
  ((c8_set_periodic_stop_flag cfgA TimState0 1 100
      (TIM_FLAG_RESET_ON_MATCH ||| TIM_FLAG_SET_STOPPED) (by decide)
      (by decide)).2).trans (by decide)

/-! ### Claim C9: `timer_clear` is an idempotent success -/

/-- C9: On a valid channel `timer_clear` always returns success; it
clears the armed and periodic bits, the channel's interrupt-enable bit, and
its reset-on-match SHORTS bit; on an idle channel it leaves the Channel
State Store entry unchanged; and applying it twice equals applying it once
(the second application returns the same state unchanged). -/
theorem c9_clear_idempotent (cfg : timer_conf_t) (s : TimState) (chan : Int)
    (h0 : 0 ≤ chan) (hc : chan < (cfg.channels : Int))
    (hf : s.flags < 256) (hp : s.is_periodic < 256) :
    (timer_clear1 cfg s chan).retval = some 0 ∧
    ∀ s', timer_clear1 cfg s chan = CResult.ret 0 s' →
      (s'.flags.testBit chan.toNat = false ∧
       s'.is_periodic.testBit chan.toNat = false ∧
       s'.inten.testBit (16 + chan.toNat) = false ∧
       s'.shorts.testBit chan.toNat = false) ∧
      (s.flags.testBit chan.toNat = false →
       s.is_periodic.testBit chan.toNat = false →
        s'.cb = s.cb ∧ s'.arg = s.arg ∧ s'.flags = s.flags ∧
        s'.is_periodic = s.is_periodic) ∧
      timer_clear1 cfg s' chan = CResult.ret 0 s' := by
  have hg1 : ¬((cfg.channels : Int) ≤ chan) := not_le.mpr hc
  have hg2 : ¬(chan < 0) := not_lt.mpr h0
  simp only [timer_clear1, if_neg hg1, if_neg hg2]
  refine ⟨rfl, ?_⟩
  intro s' hs'
  injection hs' with h1 h2
  subst h2
  refine ⟨⟨testBit_ldiff_mod256_self _ _, testBit_ldiff_mod256_self _ _,
      testBit_ldiff_msk_self _ _, testBit_ldiff_one_self _ _⟩, ?_, ?_⟩
  · intro hfb hpb
    exact ⟨rfl, rfl, ldiff_mod256_of_not_testBit _ hf hfb,
      ldiff_mod256_of_not_testBit _ hp hpb⟩
  · simp [ldiff_idem, ldiff_mod256_idem]

/-- Concrete instance of C9: clearing the armed-periodic channel 0 of
`c9Armed` succeeds. -/
theorem c9_clear_idempotent_witness :
    (timer_clear1 cfgA c9Armed 0).retval = some 0 :=
  (c9_clear_idempotent cfgA c9Armed 0 (by decide) (by decide) (by decide)
    (by decide)).1

/-! ### Claim C10: negative channel indices pass the validation -/

/-- C10: The channel validation of `set_absolute`, `set_periodic` and
`clear` bounds the channel only from above: for a negative channel index the
signed comparison `chan >= channels` is false, so none of the three returns
the failure result; each proceeds into the negative shift/array index, which
is undefined behaviour — negative channel indices are accepted rather than
rejected at the public interface. -/
theorem c10_negative_channel_accepted (cfg : timer_conf_t) (s : TimState)
    (chan : Int) (value fl : Nat) (hneg : chan < 0) :
    timer_set_absolute1 cfg s chan value = CResult.ub ∧
    timer_set_periodic1 cfg s chan value fl = CResult.ub ∧
    timer_clear1 cfg s chan = CResult.ub ∧
    (timer_set_absolute1 cfg s chan value).retval ≠ some (-1) ∧
    (timer_set_periodic1 cfg s chan value fl).retval ≠ some (-1) ∧
    (timer_clear1 cfg s chan).retval ≠ some (-1) := by
  have hg : ¬((cfg.channels : Int) ≤ chan) := by omega
  refine ⟨?_, ?_, ?_, ?_, ?_, ?_⟩ <;>
    simp [timer_set_absolute1, timer_set_periodic1, timer_clear1,
      if_neg hg, hneg, CResult.retval]

/-- Concrete instance of C10: `timer_set_absolute` with channel -1 is not
rejected by the guard and runs into the negative shift. -/
theorem c10_negative_channel_accepted_witness :
    timer_set_absolute1 cfgA TimState0 (-1) 0 = CResult.ub :=
  (c10_negative_channel_accepted cfgA TimState0 (-1) 0 0 (by decide)).1

/-! ### `irq_step` lemmas -/

theorem testBit_or_mod256 (x c b : Nat) :
    ((x ||| 1 <<< c) % 256).testBit b =
      (decide (b < 8) && (x.testBit b || decide (c = b))) := by
  rw [testBit_mod256, Nat.testBit_or, testBit_shiftLeft_one]

theorem testBit_ldiff_mod256 (x c b : Nat) :
    ((x.ldiff (1 <<< c)) % 256).testBit b =
      (decide (b < 8) && (x.testBit b && !decide (c = b))) := by
  rw [testBit_mod256, Nat.testBit_ldiff, testBit_shiftLeft_one]

theorem testBit_ldiff_one_ne (x : Nat) {i c : Nat} (hic : i ≠ c) :
    (x.ldiff (1 <<< i)).testBit c = x.testBit c := by
  rw [Nat.testBit_ldiff, testBit_shiftLeft_one]
  simp [hic]

theorem testBit_ldiff_msk_ne (x : Nat) {i c : Nat} (hic : i ≠ c) :
    (x.ldiff (TIMER_INTENSET_COMPARE0_Msk <<< i)).testBit (16 + c)
      = x.testBit (16 + c) := by
  rw [Nat.testBit_ldiff, testBit_msk_shiftLeft]
  have : ¬(16 + i = 16 + c) := by omega
  simp [this]

theorem testBit_ldiff_mod256_ne {x : Nat} {i c : Nat} (hic : i ≠ c)
    (hx : x < 256) : ((x.ldiff (1 <<< i)) % 256).testBit c = x.testBit c := by
  rw [testBit_ldiff_mod256]
  by_cases hc : c < 8
  · simp [hc, hic]
  · have hxc : x.testBit c = false := testBit_false_of_lt_256 hx (by omega)
    simp [hc, hxc]

theorem irq_step_is_periodic (s : TimState) (i : Nat) :
    (irq_step s i).1.is_periodic = s.is_periodic := by
  by_cases he : s.events.testBit i <;>
    by_cases hf : s.flags.testBit i <;>
      by_cases hp : s.is_periodic.testBit i <;>
        simp [irq_step, he, hf, hp]

theorem irq_step_binding (s : TimState) (i : Nat) :
    (irq_step s i).1.cb = s.cb ∧ (irq_step s i).1.arg = s.arg := by
  by_cases he : s.events.testBit i <;>
    by_cases hf : s.flags.testBit i <;>
      by_cases hp : s.is_periodic.testBit i <;>
        simp [irq_step, he, hf, hp]

theorem irq_step_flags_lt {s : TimState} (i : Nat) (h : s.flags < 256) :
    (irq_step s i).1.flags < 256 := by
  by_cases he : s.events.testBit i <;>
    by_cases hf : s.flags.testBit i <;>
      by_cases hp : s.is_periodic.testBit i <;>
        simp [irq_step, he, hf, hp, h, Nat.mod_lt _ (show 0 < 256 by norm_num)]

theorem irq_step_flags_cases (s : TimState) (i : Nat) :
    (irq_step s i).1.flags = s.flags ∨
    (irq_step s i).1.flags = (s.flags.ldiff (1 <<< i)) % 256 := by
  by_cases he : s.events.testBit i <;>
    by_cases hf : s.flags.testBit i <;>
      by_cases hp : s.is_periodic.testBit i <;>
        simp [irq_step, he, hf, hp]

theorem irq_step_events_cases (s : TimState) (i : Nat) :
    (irq_step s i).1.events = s.events ∨
    (irq_step s i).1.events = s.events.ldiff (1 <<< i) := by
  by_cases he : s.events.testBit i <;>
    by_cases hf : s.flags.testBit i <;>
      by_cases hp : s.is_periodic.testBit i <;>
        simp [irq_step, he, hf, hp]

theorem irq_step_flags_mono (s : TimState) (i c : Nat)
    (h : (irq_step s i).1.flags.testBit c = true) :
    s.flags.testBit c = true := by
  rcases irq_step_flags_cases s i with hc | hc
  · rwa [hc] at h
  · rw [hc, testBit_ldiff_mod256] at h
    simp only [Bool.and_eq_true] at h
    exact h.2.1

theorem irq_step_events_mono (s : TimState) (i c : Nat)
    (h : (irq_step s i).1.events.testBit c = true) :
    s.events.testBit c = true := by
  rcases irq_step_events_cases s i with hc | hc
  · rwa [hc] at h
  · rw [hc, Nat.testBit_ldiff] at h
    simp only [Bool.and_eq_true] at h
    exact h.1

theorem irq_step_events_self (s : TimState) (c : Nat) :
    (irq_step s c).1.events.testBit c = false := by
  by_cases he : s.events.testBit c <;>
    by_cases hf : s.flags.testBit c <;>
      by_cases hp : s.is_periodic.testBit c <;>
        simp [irq_step, he, hf, hp, testBit_ldiff_one_self]

theorem irq_step_bit_ne (s : TimState) {i c : Nat} (hic : i ≠ c)
    (hf8 : s.flags < 256) :
    (irq_step s i).1.flags.testBit c = s.flags.testBit c ∧
    (irq_step s i).1.events.testBit c = s.events.testBit c ∧
    (irq_step s i).1.inten.testBit (16 + c) = s.inten.testBit (16 + c) := by
  by_cases he : s.events.testBit i <;>
    by_cases hf : s.flags.testBit i <;>
      by_cases hp : s.is_periodic.testBit i <;>
        simp [irq_step, he, hf, hp, testBit_ldiff_one_ne _ hic,
          testBit_ldiff_msk_ne _ hic, testBit_ldiff_mod256_ne hic hf8]

theorem irq_step_fired (s : TimState) (i : Nat) :
    (irq_step s i).2 = some i ∨ (irq_step s i).2 = none := by
  by_cases he : s.events.testBit i <;>
    by_cases hf : s.flags.testBit i <;>
      by_cases hp : s.is_periodic.testBit i <;>
        simp [irq_step, he, hf, hp]

theorem irq_step_fired_flags (s : TimState) (i : Nat)
    (h : (irq_step s i).2 = some i) : s.flags.testBit i = true := by
  by_cases he : s.events.testBit i <;>
    by_cases hf : s.flags.testBit i <;>
      by_cases hp : s.is_periodic.testBit i <;>
        simp [irq_step, he, hf, hp] at h ⊢

theorem irq_step_oneshot (s : TimState) (c : Nat)
    (hev : s.events.testBit c = true) (hfl : s.flags.testBit c = true)
    (hper : s.is_periodic.testBit c = false) :
    (irq_step s c).2 = some c ∧
    (irq_step s c).1.flags.testBit c = false ∧
    (irq_step s c).1.events.testBit c = false ∧
    (irq_step s c).1.inten.testBit (16 + c) = false := by
  simp only [irq_step, hev, hfl, hper, eq_self_iff_true, if_true]
  exact ⟨trivial, testBit_ldiff_mod256_self _ _, testBit_ldiff_one_self _ _,
    testBit_ldiff_msk_self _ _⟩

theorem irq_step_StoreInv (s : TimState) (i : Nat) (h : StoreInv s) :
    StoreInv (irq_step s i).1 := by
  obtain ⟨hsub, hf256, hp256⟩ := h
  by_cases he : s.events.testBit i
  · by_cases hfl : s.flags.testBit i
    · by_cases hper : s.is_periodic.testBit i
      · simp only [irq_step, he, hfl, hper, if_true, reduceIte]
        exact ⟨hsub, hf256, hp256⟩
      · have hper' : s.is_periodic.testBit i = false := by
          exact Bool.not_eq_true _ ▸ (by simpa using hper)
        simp only [irq_step, he, hfl, hper', if_true, reduceIte]
        refine ⟨?_, Nat.mod_lt _ (by norm_num), hp256⟩
        intro b hb
        have hb8 : b < 8 := lt_eight_of_testBit hp256 hb
        have hfb : s.flags.testBit b = true := hsub b hb
        have hbi : ¬(i = b) := by
          intro hEq
          subst hEq
          rw [hper'] at hb
          cases hb
        rw [testBit_ldiff_mod256]
        simp [hb8, hfb, hbi]
    · simp only [irq_step, he, hfl, if_true, reduceIte]
      exact ⟨hsub, hf256, hp256⟩
  · simp only [irq_step, he, reduceIte]
    exact ⟨hsub, hf256, hp256⟩

/-! ### `irq_scan` lemmas -/

theorem irq_scan_untouched (c : Nat) :
    ∀ l : List Nat, c ∉ l → ∀ s : TimState, s.flags < 256 →
      (irq_scan s l).1.flags.testBit c = s.flags.testBit c ∧
      (irq_scan s l).1.events.testBit c = s.events.testBit c ∧
      (irq_scan s l).1.inten.testBit (16 + c) = s.inten.testBit (16 + c) ∧
      (irq_scan s l).2.count c = 0 := by
  intro l
  induction l with
  | nil => intro _ s _; simp [irq_scan]
  | cons i rest ih =>
      intro hmem s h256
      rw [List.mem_cons] at hmem
      push_neg at hmem
      obtain ⟨hci, hcr⟩ := hmem
      have hb := irq_step_bit_ne s (Ne.symm hci) h256
      have h256' := irq_step_flags_lt (s := s) i h256
      have IH := ih hcr (irq_step s i).1 h256'
      simp only [irq_scan]
      refine ⟨IH.1.trans hb.1, IH.2.1.trans hb.2.1, IH.2.2.1.trans hb.2.2, ?_⟩
      rw [List.count_append, IH.2.2.2]
      rcases irq_step_fired s i with hfi | hfi <;>
        simp [hfi, List.count_singleton, Ne.symm hci]

theorem irq_scan_events_mono (c : Nat) :
    ∀ l : List Nat, ∀ s : TimState,
      (irq_scan s l).1.events.testBit c = true → s.events.testBit c = true := by
  intro l
  induction l with
  | nil => intro s h; simpa [irq_scan] using h
  | cons i rest ih =>
      intro s h
      simp only [irq_scan] at h
      exact irq_step_events_mono s i c (ih (irq_step s i).1 h)

theorem irq_scan_events_clear (c : Nat) :
    ∀ l : List Nat, c ∈ l → ∀ s : TimState,
      (irq_scan s l).1.events.testBit c = false := by
  intro l
  induction l with
  | nil => intro h; cases h
  | cons i rest ih =>
      intro hmem s
      rcases eq_or_ne i c with rfl | hic
      · simp only [irq_scan]
        cases hfin : (irq_scan (irq_step s i).1 rest).1.events.testBit i
        · rfl
        · have := irq_scan_events_mono i rest (irq_step s i).1 hfin
          rw [irq_step_events_self] at this
          cases this
      · have hmem' : c ∈ rest := by
          rcases List.mem_cons.mp hmem with h | h
          · exact absurd h.symm hic
          · exact h
        simp only [irq_scan]
        exact ih hmem' (irq_step s i).1

theorem irq_scan_count_zero (c : Nat) :
    ∀ l : List Nat, ∀ s : TimState, s.flags.testBit c = false →
      (irq_scan s l).2.count c = 0 ∧
      (irq_scan s l).1.flags.testBit c = false := by
  intro l
  induction l with
  | nil => intro s h; simpa [irq_scan] using h
  | cons i rest ih =>
      intro s hfl
      have hstep : (irq_step s i).1.flags.testBit c = false := by
        cases hx : (irq_step s i).1.flags.testBit c
        · rfl
        · rw [irq_step_flags_mono s i c hx] at hfl
          cases hfl
      have IH := ih (irq_step s i).1 hstep
      simp only [irq_scan]
      refine ⟨?_, IH.2⟩
      rw [List.count_append, IH.1]
      rcases irq_step_fired s i with hfi | hfi
      · have hic : i ≠ c := by
          intro hEq
          subst hEq
          rw [irq_step_fired_flags s i hfi] at hfl
          cases hfl
        simp [hfi, List.count_singleton, hic]
      · simp [hfi]

theorem irq_scan_oneshot (c : Nat) :
    ∀ l : List Nat, l.Nodup → c ∈ l → ∀ s : TimState, s.flags < 256 →
      s.events.testBit c = true → s.flags.testBit c = true →
      s.is_periodic.testBit c = false →
      (irq_scan s l).1.flags.testBit c = false ∧
      (irq_scan s l).1.events.testBit c = false ∧
      (irq_scan s l).1.inten.testBit (16 + c) = false ∧
      (irq_scan s l).2.count c = 1 := by
  intro l
  induction l with
  | nil => intro _ h; cases h
  | cons i rest ih =>
      intro hnd hmem s h256 hev hfl hper
      obtain ⟨hhead, hrest⟩ := List.nodup_cons.mp hnd
      rcases eq_or_ne i c with rfl | hic
      · have hstep := irq_step_oneshot s i hev hfl hper
        have h256' := irq_step_flags_lt (s := s) i h256
        have hu := irq_scan_untouched i rest hhead (irq_step s i).1 h256'
        simp only [irq_scan]
        refine ⟨hu.1.trans hstep.2.1, hu.2.1.trans hstep.2.2.1,
          hu.2.2.1.trans hstep.2.2.2, ?_⟩
        rw [List.count_append, hu.2.2.2, hstep.1]
        simp [List.count_singleton]
      · have hmem' : c ∈ rest := by
          rcases List.mem_cons.mp hmem with h | h
          · exact absurd h.symm hic
          · exact h
        have hb := irq_step_bit_ne s hic h256
        have h256' := irq_step_flags_lt (s := s) i h256
        have IH := ih hrest hmem' (irq_step s i).1 h256'
          (hb.2.1.trans hev) (hb.1.trans hfl)
          (by rw [irq_step_is_periodic]; exact hper)
        simp only [irq_scan]
        refine ⟨IH.1, IH.2.1, IH.2.2.1, ?_⟩
        rw [List.count_append, IH.2.2.2]
        rcases irq_step_fired s i with hfi | hfi <;>
          simp [hfi, List.count_singleton, hic]

theorem irq_scan_StoreInv : ∀ l : List Nat, ∀ s : TimState, StoreInv s →
    StoreInv (irq_scan s l).1 := by
  intro l
  induction l with
  | nil => intro s h; exact h
  | cons i rest ih =>
      intro s h
      simp only [irq_scan]
      exact ih (irq_step s i).1 (irq_step_StoreInv s i h)

/-! ### Claims C5, C6, C7: the Interrupt Dispatcher -/

/-- C5: When the Interrupt Dispatcher processes a pending compare event
on a valid channel whose armed bit is set and whose periodic bit is clear,
it clears that channel's armed bit, disables that channel's interrupt-enable
bit and consumes the event, and the callback is invoked exactly once with
that channel index (the invocation trace counts channel `c` exactly once).
The `flags < 256` hypothesis is the `uint8_t` representation bound that
every reachable state satisfies. -/
theorem c5_oneshot_dispatch (cfg : timer_conf_t) (s : TimState) (c : Nat)
    (hc : c < cfg.channels) (h256 : s.flags < 256)
    (hev : s.events.testBit c = true) (hfl : s.flags.testBit c = true)
    (hper : s.is_periodic.testBit c = false) :
    (irq_handler1 cfg s).1.flags.testBit c = false ∧
    (irq_handler1 cfg s).1.inten.testBit (16 + c) = false ∧
    (irq_handler1 cfg s).1.events.testBit c = false ∧
    (irq_handler1 cfg s).2.count c = 1 := by
  have h := irq_scan_oneshot c (List.range cfg.channels) (List.nodup_range _)
    (List.mem_range.mpr hc) s h256 hev hfl hper
  exact ⟨h.1, h.2.2.1, h.2.1, h.2.2.2⟩

/-- Concrete instance of C5: from `c5Pending` (channel 0 armed-one-shot with
a pending event) the dispatcher fires the callback exactly once with
channel 0. -/
theorem c5_oneshot_dispatch_witness :
    (irq_handler1 cfgA c5Pending).2.count 0 = 1 :=
  (c5_oneshot_dispatch cfgA c5Pending 0 (by decide) (by decide) (by decide)
    (by decide) (by decide)).2.2.2

/-- C6: The Dispatcher never invokes the callback for a channel whose
software armed bit is clear: a pending event on a disarmed channel is
consumed (its event flag cleared) with zero invocations for that channel;
consequently, after a successful `timer_clear` of a channel, a dispatcher
run on the resulting state never invokes the callback for that channel. -/
theorem c6_disarmed_guard :
    (∀ (cfg : timer_conf_t) (s : TimState) (c : Nat), c < cfg.channels →
      s.events.testBit c = true → s.flags.testBit c = false →
      (irq_handler1 cfg s).1.events.testBit c = false ∧
      (irq_handler1 cfg s).2.count c = 0) ∧
    (∀ (cfg : timer_conf_t) (s s' : TimState) (chan : Int),
      timer_clear1 cfg s chan = CResult.ret 0 s' →
      (irq_handler1 cfg s').2.count chan.toNat = 0) := by
  constructor
  · intro cfg s c hc _hev hfl
    exact ⟨irq_scan_events_clear c (List.range cfg.channels)
        (List.mem_range.mpr hc) s,
      (irq_scan_count_zero c (List.range cfg.channels) s hfl).1⟩
  · intro cfg s s' chan h
    simp only [timer_clear1] at h
    split_ifs at h with h1 h2
    · injection h with hv _
      exact absurd hv (by norm_num)
    · injection h with _ hs
      subst hs
      exact (irq_scan_count_zero chan.toNat (List.range cfg.channels) _
        (testBit_ldiff_mod256_self _ _)).1

/-- Concrete instance of C6: a stale pending event on the disarmed channel 0
of `c6Stale` produces no callback invocation. -/
theorem c6_disarmed_guard_witness :
    (irq_handler1 cfgA c6Stale).2.count 0 = 0 :=
  (c6_disarmed_guard.1 cfgA c6Stale 0 (by decide) (by decide) (by decide)).2

/-- C7: The Channel State Store invariant "a channel's periodic bit is
set only if its armed bit is also set" (together with the `uint8_t` bounds
of the two bitsets, `StoreInv`) holds in the zero-initialized initial state
and is preserved by every operation of the core: `timer_init`,
`timer_set_absolute`, `timer_set_periodic`, `timer_clear`, `timer_read`,
`timer_start`, `timer_stop`, and every Interrupt Dispatcher run. -/
theorem c7_periodic_subset_armed :
    StoreInv TimState0 ∧
    (∀ (cfg : timer_conf_t) (s : TimState) (freq cb arg : Nat) (r : Int)
        (s' : TimState), StoreInv s →
      timer_init1 cfg s freq cb arg = CResult.ret r s' → StoreInv s') ∧
    (∀ (cfg : timer_conf_t) (s : TimState) (chan : Int) (value : Nat)
        (r : Int) (s' : TimState), StoreInv s →
      timer_set_absolute1 cfg s chan value = CResult.ret r s' → StoreInv s') ∧
    (∀ (cfg : timer_conf_t) (s : TimState) (chan : Int) (value fl : Nat)
        (r : Int) (s' : TimState), StoreInv s →
      timer_set_periodic1 cfg s chan value fl = CResult.ret r s' →
        StoreInv s') ∧
    (∀ (cfg : timer_conf_t) (s : TimState) (chan : Int) (r : Int)
        (s' : TimState), StoreInv s →
      timer_clear1 cfg s chan = CResult.ret r s' → StoreInv s') ∧
    (∀ (cfg : timer_conf_t) (s : TimState), StoreInv s →
      StoreInv (timer_read1 cfg s).2) ∧
    (∀ s : TimState, StoreInv s → StoreInv (timer_start1 s)) ∧
    (∀ s : TimState, StoreInv s → StoreInv (timer_stop1 s)) ∧
    (∀ (cfg : timer_conf_t) (s : TimState), StoreInv s →
      StoreInv (irq_handler1 cfg s).1) := by
  refine ⟨⟨fun b hb => by simp [TimState0] at hb, by norm_num [TimState0],
      by norm_num [TimState0]⟩, ?_, ?_, ?_, ?_, ?_, ?_, ?_, ?_⟩
  · intro cfg s freq cb arg r s' hInv h
    simp only [timer_init1] at h
    cases hp : prescaler_of freq with
    | none => rw [hp] at h; injection h with _ hs; subst hs; exact hInv
    | some i => rw [hp] at h; injection h with _ hs; subst hs; exact hInv
  · intro cfg s chan value r s' hInv h
    simp only [timer_set_absolute1] at h
    split_ifs at h with h1 h2
    · injection h with _ hs; subst hs; exact hInv
    · injection h with _ hs
      subst hs
      obtain ⟨hsub, hf256, hp256⟩ := hInv
      refine ⟨?_, Nat.mod_lt _ (by norm_num), hp256⟩
      intro b hb
      have hb8 : b < 8 := lt_eight_of_testBit hp256 hb
      have hfb : s.flags.testBit b = true := hsub b hb
      rw [testBit_or_mod256]
      simp [hb8, hfb]
  · intro cfg s chan value fl r s' hInv h
    simp only [timer_set_periodic1] at h
    split_ifs at h with h1 h2 h3 h4 h5
    all_goals
      injection h with _ hs
      subst hs
      first
      | exact hInv
      | (obtain ⟨hsub, hf256, hp256⟩ := hInv
         refine ⟨?_, Nat.mod_lt _ (by norm_num), Nat.mod_lt _ (by norm_num)⟩
         intro b hb
         rw [testBit_or_mod256] at hb
         rw [testBit_or_mod256]
         simp only [Bool.and_eq_true, Bool.or_eq_true,
           decide_eq_true_eq] at hb ⊢
         exact ⟨hb.1, hb.2.elim (fun h2 => Or.inl (hsub b h2)) Or.inr⟩)
  · intro cfg s chan r s' hInv h
    simp only [timer_clear1] at h
    split_ifs at h with h1 h2
    · injection h with _ hs; subst hs; exact hInv
    · injection h with _ hs
      subst hs
      obtain ⟨hsub, hf256, hp256⟩ := hInv
      refine ⟨?_, Nat.mod_lt _ (by norm_num), Nat.mod_lt _ (by norm_num)⟩
      intro b hb
      rw [testBit_ldiff_mod256] at hb
      rw [testBit_ldiff_mod256]
      simp only [Bool.and_eq_true, decide_eq_true_eq] at hb ⊢
      exact ⟨hb.1, hsub b hb.2.1, hb.2.2⟩
  · intro cfg s hInv; exact hInv
  · intro s hInv; exact hInv
  · intro s hInv; exact hInv
  · intro cfg s hInv
    exact irq_scan_StoreInv (List.range cfg.channels) s hInv

/-- Concrete instance of C7: the invariant holds of the zero-initialized
state. -/
theorem c7_periodic_subset_armed_witness : StoreInv TimState0 :=
  c7_periodic_subset_armed.1

end NrfTimer
